import Mathlib

/-!
Verification development for `scripts/export_salsamenteria_reviews_csv.py`.

The Python script is shallowly embedded: files are lists of lines (each line
without its trailing newline, as produced by `raw.rstrip("\n")` under Python's
universal-newline text mode), fatal errors (`die`, uncaught `ValueError` /
`IndexError` / `KeyError`) become `Except.error` / `Option String` error
components, and the per-location CSV output files become in-memory streams of
rows.  Machine integers are `Int` (Python integers are unbounded, so no
wrap-around modelling is needed).
-/

deriving instance DecidableEq for Except

namespace SalsaExport

/-- Characters treated as whitespace by Python's `str.strip()` and by the regex
class `\s` (restricted to the ASCII range, which is all the dump contains). -/
def isPySpace (c : Char) : Bool :=
  c = ' ' || c = '\t' || c = '\n' || c = '\r' || c = '\x0b' || c = '\x0c'

/-- Embedding of Python `str.strip()` on a character list. -/
def pyStripChars (l : List Char) : List Char :=
  ((l.dropWhile isPySpace).reverse.dropWhile isPySpace).reverse

/-- Embedding of Python `str.strip()`. -/
def pyStrip (s : String) : String :=
  ⟨pyStripChars s.toList⟩

/-- Embedding of Python `str.replace(pat, repl)`: replace non-overlapping
occurrences left to right.  The fuel argument (instantiated with the length of
the scanned list) only makes the recursion structural; it never runs out. -/
def pyReplaceAux (pat repl : List Char) : Nat → List Char → List Char
  | _, [] => []
  | 0, l => l
  | fuel + 1, c :: rest =>
    if pat ≠ [] ∧ pat.isPrefixOf (c :: rest) then
      repl ++ pyReplaceAux pat repl fuel (rest.drop (pat.length - 1))
    else
      c :: pyReplaceAux pat repl fuel rest

/-- Embedding of Python `s.replace(pat, repl)` for a non-empty `pat`. -/
def pyReplace (pat repl s : String) : String :=
  ⟨pyReplaceAux pat.toList repl.toList s.toList.length s.toList⟩

/-- Embedding of `decode_copy_text` (source lines 62-69): the four sequential
`str.replace` calls, `\\` first. -/
def decode_copy_text (s : String) : String :=
  let s1 := pyReplace "\\\\" "\\" s
  let s2 := pyReplace "\\t" "\t" s1
  let s3 := pyReplace "\\n" "\n" s2
  pyReplace "\\r" "\r" s3

/-- Collapse every maximal run of characters satisfying `isRun` to the single
character `repl`: the effect of `re.sub(r"[ \t]+", " ", s)` and
`re.sub(r"\n+", "\n", s)` on their respective character classes.  The `inRun`
flag records whether the previous character belonged to a run. -/
def collapseRunsAux (isRun : Char → Bool) (repl : Char) : Bool → List Char → List Char
  | _, [] => []
  | inRun, c :: rest =>
    if isRun c then
      if inRun then collapseRunsAux isRun repl true rest
      else repl :: collapseRunsAux isRun repl true rest
    else
      c :: collapseRunsAux isRun repl false rest

/-- Collapse maximal runs, starting outside a run. -/
def collapseRuns (isRun : Char → Bool) (repl : Char) (l : List Char) : List Char :=
  collapseRunsAux isRun repl false l

/-- Embedding of `normalize_text` (source lines 72-80). -/
def normalize_text (s : String) (keep_newlines : Bool) : String :=
  let s1 := pyReplace "\r\n" "\n" s
  let s2 := pyReplace "\r" "\n" s1
  let s3 : String := ⟨collapseRuns (fun c => c = ' ' || c = '\t') ' ' s2.toList⟩
  let s4 : String := ⟨collapseRuns (fun c => c = '\n') '\n' s3.toList⟩
  let s5 := pyStrip s4
  if keep_newlines then s5 else pyReplace "\n" "\\n" s5

/-- Numeric value of a non-empty list of decimal digits. -/
def digitsToNat (l : List Char) : Nat :=
  l.foldl (fun acc c => acc * 10 + (c.toNat - '0'.toNat)) 0

/-- Embedding of Python's `int()` applied to a string: surrounding whitespace
is stripped, an optional sign is allowed, and the remainder must be a
non-empty run of decimal digits (the only shape the dump contains); any other
string raises `ValueError`, modelled as `none`. -/
def pyInt (s : String) : Option Int :=
  let l := pyStripChars s.toList
  let signed : Int × List Char :=
    match l with
    | '-' :: rest => (-1, rest)
    | '+' :: rest => (1, rest)
    | rest => (1, rest)
  if signed.2 ≠ [] ∧ signed.2.all Char.isDigit then
    some (signed.1 * (digitsToNat signed.2 : Int))
  else
    none

/-- Split a character list at every occurrence of `sep`:
`splitOnChar sep [] = [[]]`, matching Python's `"".split(sep) == [""]`. -/
def splitOnChar (sep : Char) : List Char → List (List Char)
  | [] => [[]]
  | c :: rest =>
    if c = sep then
      [] :: splitOnChar sep rest
    else
      match splitOnChar sep rest with
      | [] => [[c]]
      | h :: t => (c :: h) :: t

/-- Embedding of Python `s.split(sep)` for a single-character separator. -/
def pySplit (sep : Char) (s : String) : List String :=
  (splitOnChar sep s.toList).map fun cl => ⟨cl⟩

/-- Embedding of Python `str.lower()` (ASCII case folding, which is all the
matching logic relies on). -/
def pyLower (s : String) : String :=
  ⟨s.toList.map Char.toLower⟩

/-- Substring test: does `needle` occur contiguously inside `hay`?  This is
Python's `needle in hay` on strings. -/
def containsSub (needle hay : List Char) : Bool :=
  (List.range (hay.length + 1)).any fun i => needle.isPrefixOf (hay.drop i)

/-- Embedding of `business_name.lower() in name.lower()`. -/
def containsLower (needle hay : String) : Bool :=
  containsSub (pyLower needle).toList (pyLower hay).toList

/-- Characters matched by the regex class `[a-z0-9_]` used for the table name
in `COPY_START_RE`. -/
def isTableChar (c : Char) : Bool :=
  ('a' ≤ c && c ≤ 'z') || c.isDigit || c = '_'

/-- Drop a literal pattern from the front of a character list, failing when it
is not there. -/
def dropLit (pat l : List Char) : Option (List Char) :=
  if pat.isPrefixOf l then some (l.drop pat.length) else none

/-- Drop a maximal non-empty run of whitespace (`\s+` with maximal munch; the
regex never needs to backtrack here because every character that may follow a
`\s+` in `COPY_START_RE` is not itself whitespace). -/
def dropWs1 (l : List Char) : Option (List Char) :=
  let r := l.dropWhile isPySpace
  if r.length < l.length then some r else none

/-- Does a character list match the regex tail `\s+FROM\s+stdin;\s*$`? -/
def copyGateTail (l : List Char) : Bool :=
  match dropWs1 l with
  | none => false
  | some l1 =>
    match dropLit "FROM".toList l1 with
    | none => false
    | some l2 =>
      match dropWs1 l2 with
      | none => false
      | some l3 =>
        match dropLit "stdin;".toList l3 with
        | none => false
        | some l4 => l4.all isPySpace

/-- Greedy match for the group `\((?P<cols>.+)\)` followed by the regex tail:
the dot-plus group is greedy, so the match takes the longest non-empty,
newline-free span that is followed by `)` and a matching tail.  Scanning the
candidate split points from the right mirrors the regex engine's
backtracking. -/
def colsSplit (rem : List Char) : Option (List Char) :=
  (List.range rem.length).reverse.findSome? fun i =>
    if 1 ≤ i ∧ rem.getD i ' ' = ')' ∧ (rem.take i).all (fun c => c ≠ '\n')
        ∧ copyGateTail (rem.drop (i + 1)) then
      some (rem.take i)
    else
      none

/-- Embedding of `COPY_START_RE.match(line)` (source line 34): the anchored
regex `^COPY\s+public\.(?P<table>[a-z0-9_]+)\s+\((?P<cols>.+)\)\s+FROM\s+stdin;\s*$`.
Returns the captured table name and raw column-list text on a match. -/
def copyStartMatch (line : String) : Option (String × String) :=
  (dropLit "COPY".toList line.toList).bind fun l1 =>
  (dropWs1 l1).bind fun l2 =>
  (dropLit "public.".toList l2).bind fun l3 =>
  let table := l3.takeWhile isTableChar
  if table = [] then none
  else
    (dropWs1 (l3.drop table.length)).bind fun l4 =>
    (dropLit ['('] l4).bind fun l5 =>
    (colsSplit l5).map fun cols => (String.mk table, String.mk cols)

/-- Declared column count of a header: `len([c.strip() for c in cols.split(",")])`
(source lines 98-99).  The per-column `strip` cannot change the length, but it
is kept to mirror the source. -/
def colsList (cols : String) : List String :=
  (pySplit ',' cols).map pyStrip

/-- Worker loop of `iter_copy_rows` (source lines 83-114), one constructor
step per source line.  State: remaining lines, the `in_copy` flag, the
declared column count (`cols_count`), and the rows yielded so far (reversed).
The accumulated rows model the generator consumed to exhaustion; a `die`
becomes `Except.error` carrying the message (the source's column-count message
uses `path.name` where the other two use the full path; the embedding passes a
single `path` string for both). -/
def iterCopyRowsGo (path expected : String) :
    List String → Bool → Option Nat → List (List String) →
    Except String (List (List String))
  | [], inCopy, _, _ =>
    if inCopy then
      .error ("COPY block in " ++ path ++ " did not terminate with \\\\.")
    else
      .error ("COPY block not found in " ++ path)
  | line :: rest, false, colsCount, acc =>
    (match copyStartMatch line with
     | none => iterCopyRowsGo path expected rest false colsCount acc
     | some (table, cols) =>
       if table = expected then
         iterCopyRowsGo path expected rest true (some (colsList cols).length) acc
       else
         iterCopyRowsGo path expected rest false colsCount acc)
  | line :: rest, true, colsCount, acc =>
    if line = "\\." then
      .ok acc.reverse
    else
      let parts := pySplit '\t' line
      (match colsCount with
       | some n =>
         if parts.length ≠ n then
           .error ("unexpected column count in " ++ path ++ ": got "
             ++ toString parts.length ++ " expected " ++ toString n)
         else
           iterCopyRowsGo path expected rest true colsCount (parts :: acc)
       | none => iterCopyRowsGo path expected rest true colsCount (parts :: acc))

/-- Embedding of `iter_copy_rows(path, expected_table)`: the file content is
passed as the list of its lines (without trailing newlines); the result is the
full list of yielded rows, or the message of the fatal error hit while
consuming the generator to exhaustion. -/
def iter_copy_rows (path : String) (file : List String) (expected : String) :
    Except String (List (List String)) :=
  iterCopyRowsGo path expected file false none []

/-- Fixed basename of the businesses fragment (the source derives it under a
project-root constant; only the string identity matters for error messages). -/
def BUSINESS_SQL : String := "public__business_business.sql"

/-- Fixed basename of the locations fragment. -/
def LOCATION_SQL : String := "public__business_location.sql"

/-- Embedding of the dataclass `Business` (source lines 37-40). -/
structure Business where
  id : Int
  name : String
deriving DecidableEq

/-- Embedding of the dataclass `Location` (source lines 43-47). -/
structure Location where
  id : Int
  name : String
  business_id : Int
deriving DecidableEq

/-- List indexing `row[i]`; an out-of-range index raises `IndexError`, an
uncaught fatal error, modelled as `Except.error`. -/
def exceptIdx (row : List String) (i : Nat) : Except String String :=
  match row.get? i with
  | some v => .ok v
  | none => .error "IndexError: list index out of range"

/-- Python `int(s)`; failure to parse raises `ValueError`, an uncaught fatal
error, modelled as `Except.error`. -/
def exceptInt (s : String) : Except String Int :=
  match pyInt s with
  | some n => .ok n
  | none => .error ("ValueError: invalid literal for int() with base 10: " ++ s)

/-- Diagnostic hint attached to the business-not-found message (source line
133): up to 8 candidate names, or nothing when there are no candidates. -/
def candidatesHint (candidates : List String) : String :=
  if candidates = [] then ""
  else " (candidates: " ++ String.intercalate ", " (candidates.take 8) ++ ")"

/-- Python `repr` of a list of integers, as interpolated by
`f"...{[m.id for m in matches]}"` (source line 137). -/
def pyIntListRepr (l : List Int) : String :=
  "[" ++ String.intercalate ", " (l.map toString) ++ "]"

/-- Embedding of `find_business_id_by_name` (source lines 117-139).  The file
content stands in for reading `BUSINESS_SQL`.  The source interleaves the
generator with the `int`/decode calls; the embedding materialises the block
first, which can reorder which of two distinct fatal errors fires but agrees
with the source whenever the block itself is readable, and the second
candidate scan re-reads the same file and therefore sees the same rows. -/
def find_business_id_by_name (businessFile : List String) (business_name : String) :
    Except String Business := do
  let rows ← iter_copy_rows BUSINESS_SQL businessFile "business_business"
  let found ← rows.foldlM (fun acc row => do
      let s0 ← exceptIdx row 0
      let bid ← exceptInt s0
      let s2 ← exceptIdx row 2
      let name := decode_copy_text s2
      if name = business_name then pure (acc ++ [Business.mk bid name]) else pure acc)
    ([] : List Business)
  match found with
  | [] => do
    let candidates ← rows.foldlM (fun acc row => do
        let s2 ← exceptIdx row 2
        let name := decode_copy_text s2
        if containsLower business_name name then pure (acc ++ [name]) else pure acc)
      ([] : List String)
    .error ("business \"" ++ business_name ++ "\" not found" ++ candidatesHint candidates)
  | [b] => pure b
  | _ => .error ("business \"" ++ business_name ++ "\" matched multiple rows: "
      ++ pyIntListRepr (found.map Business.id))

/-- Ordering used by `sorted(locs, key=lambda l: l.id)`. -/
def locLe (a b : Location) : Prop := a.id ≤ b.id

instance : DecidableRel locLe := fun a b => inferInstanceAs (Decidable (a.id ≤ b.id))

instance : IsTotal Location locLe := ⟨fun a b => Int.le_total a.id b.id⟩

instance : IsTrans Location locLe := ⟨fun _ _ _ hab hbc => le_trans hab hbc⟩

/-- Embedding of `load_locations_for_business` (source lines 142-151), with
the same materialise-then-scan caveat as `find_business_id_by_name`.  The
stable Python `sorted` is rendered as an insertion sort; no claim depends on
the order of locations sharing an id. -/
def load_locations_for_business (locationFile : List String) (business_id : Int) :
    Except String (List Location) := do
  let rows ← iter_copy_rows LOCATION_SQL locationFile "business_location"
  let locs ← rows.foldlM (fun acc row => do
      let s0 ← exceptIdx row 0
      let lid ← exceptInt s0
      let s2 ← exceptIdx row 2
      let name := decode_copy_text s2
      let s3 ← exceptIdx row 3
      let bid ← exceptInt s3
      if bid = business_id then pure (acc ++ [Location.mk lid name bid]) else pure acc)
    ([] : List Location)
  pure (List.insertionSort locLe locs)

/-- Embedding of the location check at the call site in `main` (source lines
305-307): an empty location list is a fatal `die`. -/
def mainLocationsCheck (biz : Business) (locs : List Location) : Except String Unit :=
  if locs = [] then
    .error ("no locations found for business_id=" ++ toString biz.id
      ++ " (\"" ++ biz.name ++ "\")")
  else
    .ok ()

/-- Python `dict` assignment `d[k] = v`: an existing key keeps its position
and gets the new value, a fresh key is appended. -/
def dictInsert {α : Type} (k : Int) (v : α) : List (Int × α) → List (Int × α)
  | [] => [(k, v)]
  | (k', v') :: rest =>
    if k' = k then (k', v) :: rest else (k', v') :: dictInsert k v rest

/-- Python `dict` lookup `d.get(k)` / `d[k]` (a `none` at a `d[k]` site is a
`KeyError`). -/
def dictGet {α : Type} (d : List (Int × α)) (k : Int) : Option α :=
  (d.find? fun p => p.1 = k).map Prod.snd

/-- Key list of a dict, in insertion order (`d.keys()` / iteration order). -/
def dictKeys {α : Type} (d : List (Int × α)) : List Int :=
  d.map Prod.fst

/-- Header row written by `csv.DictWriter.writeheader` with the fieldnames of
`open_writers` (source lines 162-177). -/
def csvFieldnames : List String :=
  ["location_id", "location_name", "review_uid", "review_date", "rating",
   "source", "author", "title", "text", "url"]

/-- Embedding of `open_writers` (source lines 154-179): one output stream per
location, keyed by location id, holding the header row.  A stream is the list
of rows already written to the file; CSV quoting and the on-disk filename
(slug) are not modelled, no claim concerns them. -/
def open_writers (locations : List Location) : List (Int × List (List String)) :=
  locations.foldl (fun d loc => dictInsert loc.id [csvFieldnames] d) []

/-- Mutable state of the review scan: the per-location output streams and the
per-location counters. -/
structure ScanState where
  writers : List (Int × List (List String))
  counts : List (Int × Nat)
deriving DecidableEq

/-- Per-field decode `field(i)` (source lines 229-234): the NULL literal `\N`
becomes the empty string, anything else is escape-decoded and, when
normalization is on, whitespace-normalized. -/
def fieldDecode (normalize_whitespace keep_newlines : Bool) (v : String) : String :=
  if v = "\\N" then ""
  else
    let v1 := decode_copy_text v
    if normalize_whitespace then normalize_text v1 keep_newlines else v1

/-- Rendered CSV data row, in `csvFieldnames` order, as `csv.DictWriter`
writes the dict of source lines 237-250 (values are routed by column name,
so the field indices here follow the fieldnames order: review_uid is
field 1, review_date field 8, rating field 6, source field 2, author field 7,
title field 3, text field 4, url field 5). -/
def renderRow (location_id : Int) (locName : String) (fieldAt : Nat → String) :
    List String :=
  [toString location_id, locName, fieldAt 1, fieldAt 8, fieldAt 6,
   fieldAt 2, fieldAt 7, fieldAt 3, fieldAt 4, fieldAt 5]

/-- Handling of one data line of the reviews block (source lines 213-254),
given its tab-split parts: the width check, the two foreign-key filters, and
the write+count update for an accepted row.  The first component is the fatal
error raised, if any (`die` on a bad width, `ValueError` from `int`, or the
`KeyError` that a missing dict key would raise — unreachable from
`export_reviews` since `loc_ids` is exactly the key set of all three dicts).
Progress printing (source lines 253-254) touches no state and is not
modelled. -/
def processRow (business_id : Int) (loc_by_id : List (Int × Location))
    (loc_ids : List Int) (normalize_whitespace keep_newlines : Bool)
    (line_no : Nat) (parts : List String) (st : ScanState) :
    Option String × ScanState :=
  if parts.length ≠ 17 then
    (some ("unexpected column count in reviews_review at line " ++ toString line_no
      ++ ": got " ++ toString parts.length ++ " expected 17"), st)
  else if parts.getD 11 "" = "\\N" then
    (none, st)
  else
    match pyInt (parts.getD 11 "") with
    | none => (some ("ValueError: invalid literal for int() with base 10: "
        ++ parts.getD 11 ""), st)
    | some bid =>
      if bid ≠ business_id then (none, st)
      else if parts.getD 12 "" = "\\N" then (none, st)
      else
        match pyInt (parts.getD 12 "") with
        | none => (some ("ValueError: invalid literal for int() with base 10: "
            ++ parts.getD 12 ""), st)
        | some location_id =>
          if location_id ∉ loc_ids then (none, st)
          else
            match dictGet loc_by_id location_id, dictGet st.writers location_id,
                dictGet st.counts location_id with
            | some loc, some stream, some c =>
              let row := renderRow location_id loc.name fun i =>
                fieldDecode normalize_whitespace keep_newlines (parts.getD i "")
              (none,
               ⟨dictInsert location_id (stream ++ [row]) st.writers,
                dictInsert location_id (c + 1) st.counts⟩)
            | _, _, _ => (some "KeyError", st)

/-- Scan loop of `export_reviews` over the reviews file (source lines
196-254): the inline header search `line.startswith("COPY public.reviews_review ")`,
the terminator `break`, and one `processRow` per data line.  `line_no` counts
the lines already consumed; reaching the end of the file — with or without
having entered the block — ends the loop normally. -/
def reviewScanGo (business_id : Int) (loc_by_id : List (Int × Location))
    (loc_ids : List Int) (normalize_whitespace keep_newlines : Bool) :
    List String → Bool → Nat → ScanState → Option String × ScanState
  | [], _, _, st => (none, st)
  | line :: rest, false, line_no, st =>
    if "COPY public.reviews_review ".toList.isPrefixOf line.toList then
      reviewScanGo business_id loc_by_id loc_ids normalize_whitespace keep_newlines
        rest true (line_no + 1) st
    else
      reviewScanGo business_id loc_by_id loc_ids normalize_whitespace keep_newlines
        rest false (line_no + 1) st
  | line :: rest, true, line_no, st =>
    if line = "\\." then
      (none, st)
    else
      match processRow business_id loc_by_id loc_ids normalize_whitespace
          keep_newlines (line_no + 1) (pySplit '\t' line) st with
      | (some e, st') => (some e, st')
      | (none, st') =>
        reviewScanGo business_id loc_by_id loc_ids normalize_whitespace keep_newlines
          rest true (line_no + 1) st'

/-- Observable outcome of one `export_reviews` run.  `err` is the fatal error
propagated out of the scan, if any; `writers` and `counts` are the final
streams and counters (on an error they hold everything written before it, the
`finally` block having flushed and closed the files); `closed` lists the
close calls the `finally` block performs, in `writers.values()` order;
`stdoutLog` is the summary printed on normal completion; `ret` mirrors the
Python return value — `export_reviews` has no return statement, so it always
returns `None`, never the counts. -/
structure ExportResult where
  err : Option String
  writers : List (Int × List (List String))
  counts : List (Int × Nat)
  closed : List Int
  stdoutLog : List String
  ret : Option (List (Int × Nat))
deriving DecidableEq

/-- Counter value printed for a location (`counts[loc.id]`; the key is always
present, so the default is never used). -/
def countOf (d : List (Int × Nat)) (k : Int) : Nat :=
  (dictGet d k).getD 0

/-- Python `sum(counts.values())`. -/
def sumCounts (d : List (Int × Nat)) : Nat :=
  (d.map Prod.snd).sum

/-- Setup and scan phase of `export_reviews` (source lines 190-254): the
`loc_by_id` dict, its key set `loc_ids`, the opened writers, the zeroed
counters, and the scan of the reviews file from that initial state.  Returns
the propagated fatal error (if any) and the state the `finally` block sees. -/
def exportScan (business_id : Int) (locations : List Location)
    (normalize_whitespace keep_newlines : Bool) (reviewsFile : List String) :
    Option String × ScanState :=
  let loc_by_id := locations.foldl (fun d l => dictInsert l.id l d) []
  let loc_ids := dictKeys loc_by_id
  let writers := open_writers locations
  let counts := loc_ids.foldl (fun d lid => dictInsert lid 0 d) []
  reviewScanGo business_id loc_by_id loc_ids normalize_whitespace
    keep_newlines reviewsFile false 0 ⟨writers, counts⟩

/-- Embedding of `export_reviews` (source lines 182-263).  The reviews file
content is passed as its list of lines; `progress_every` only controls stderr
progress printing and is otherwise unused. -/
def export_reviews (business_id : Int) (locations : List Location)
    (out_dir : String) (normalize_whitespace keep_newlines : Bool)
    (progress_every : Int) (reviewsFile : List String) : ExportResult :=
  let _ := progress_every
  let res := exportScan business_id locations normalize_whitespace keep_newlines
    reviewsFile
  let st := res.2
  let closed := dictKeys st.writers
  match res.1 with
  | some e =>
    { err := some e, writers := st.writers, counts := st.counts, closed := closed,
      stdoutLog := [], ret := none }
  | none =>
    { err := none, writers := st.writers, counts := st.counts, closed := closed,
      stdoutLog :=
        ("done: exported " ++ toString (sumCounts st.counts) ++ " reviews to " ++ out_dir)
          :: locations.map (fun loc => "- loc " ++ toString loc.id ++ " ("
              ++ loc.name ++ "): " ++ toString (countOf st.counts loc.id)),
      ret := none }

/-- Business value a row of the businesses block contributes for a given
search name: built exactly as the loop body of `find_business_id_by_name`
builds a match (used to state what the loop collects). -/
def bizOfRow (business_name : String) (row : List String) : Option Business :=
  match row.get? 0, row.get? 2 with
  | some s0, some s2 =>
    match pyInt s0 with
    | some bid =>
      if decode_copy_text s2 = business_name then some ⟨bid, decode_copy_text s2⟩
      else none
    | none => none
  | _, _ => none

/-- Candidate name a row contributes to the not-found hint of
`find_business_id_by_name`. -/
def candOfRow (business_name : String) (row : List String) : Option String :=
  match row.get? 2 with
  | some s2 =>
    if containsLower business_name (decode_copy_text s2) then
      some (decode_copy_text s2)
    else none
  | none => none

/-- Location value a row of the locations block contributes for a target
business id, as the loop body of `load_locations_for_business` builds it. -/
def locOfRow (business_id : Int) (row : List String) : Option Location :=
  match row.get? 0, row.get? 2, row.get? 3 with
  | some s0, some s2, some s3 =>
    match pyInt s0, pyInt s3 with
    | some lid, some bid =>
      if bid = business_id then some ⟨lid, decode_copy_text s2, bid⟩ else none
    | _, _ => none
  | _, _, _ => none

/-- Does a businesses-block row have the fields its scan reads, in readable
form (an integer id at position 0 and some field at position 2)? -/
def bizRowOk (row : List String) : Bool :=
  ((row.get? 0).bind pyInt).isSome && (row.get? 2).isSome

/-- Does a locations-block row have the fields its scan reads, in readable
form? -/
def locRowOk (row : List String) : Bool :=
  ((row.get? 0).bind pyInt).isSome && (row.get? 2).isSome
    && ((row.get? 3).bind pyInt).isSome

/-- Modelled from the spec: the writer-side COPY text-format escaping that
`decode_copy_text` is meant to invert — the spec's "small, fixed translation
table converts the four escape sequences `\\`, `\t`, `\n`, `\r` in a field's
raw text back to their literal characters" read in the encoding direction
(PostgreSQL's COPY writer; it is not part of the repository's code). -/
def copyEscapeChar (c : Char) : List Char :=
  if c = '\\' then ['\\', '\\']
  else if c = '\t' then ['\\', 't']
  else if c = '\n' then ['\\', 'n']
  else if c = '\r' then ['\\', 'r']
  else [c]

/-- Modelled from the spec: COPY escaping of a whole field, character by
character. -/
def copyEscape (s : String) : String :=
  ⟨s.toList.foldr (fun c acc => copyEscapeChar c ++ acc) []⟩

/-- Data-row count of one writers-dict entry: the stream length minus the
header row written by `open_writers`.  Mapping this over the writers dict
gives the counters dict the scan maintains in lockstep. -/
def streamCount (p : Int × List (List String)) : Int × Nat :=
  (p.1, p.2.length - 1)

/-!
## Theorems

Claim theorems (one per claim of the specification review), their witnesses,
and the helper lemmas they share.
-/

/-- Lines on which the header regex does not capture the expected table are
skipped without touching the reader state. -/
theorem iterGo_skip (path expected : String) (pre rest : List String)
    (cc : Option Nat) (acc : List (List String))
    (hpre : ∀ l ∈ pre, (copyStartMatch l).map Prod.fst ≠ some expected) :
    iterCopyRowsGo path expected (pre ++ rest) false cc acc
      = iterCopyRowsGo path expected rest false cc acc := by
  induction pre with
  | nil => rfl
  | cons l pre ih =>
    have hl := hpre l (List.mem_cons_self _ _)
    have hrest : ∀ x ∈ pre, (copyStartMatch x).map Prod.fst ≠ some expected :=
      fun x hx => hpre x (List.mem_cons_of_mem _ hx)
    simp only [List.cons_append, iterCopyRowsGo]
    cases hm : copyStartMatch l with
    | none => simp only [hm]; exact ih hrest
    | some tc =>
      obtain ⟨table, cols⟩ := tc
      have hne : table ≠ expected := by
        intro hEq
        exact hl (by rw [hm, hEq]; rfl)
      simp only [hm, hne, if_false, ite_false]
      exact ih hrest

/-- Inside the matching block, well-shaped rows are collected in file order
until the terminator, at which point the reader returns what it has collected
and ignores the rest of the file. -/
theorem iterGo_collect (path expected : String) (mid post : List String) (n : Nat)
    (acc : List (List String))
    (hmid : ∀ l ∈ mid, l ≠ "\\." ∧ (pySplit '\t' l).length = n) :
    iterCopyRowsGo path expected (mid ++ "\\." :: post) true (some n) acc
      = .ok (acc.reverse ++ mid.map (pySplit '\t')) := by
  induction mid generalizing acc with
  | nil => simp [iterCopyRowsGo]
  | cons l mid ih =>
    obtain ⟨hne, hlen⟩ := hmid l (List.mem_cons_self _ _)
    have hmid' : ∀ x ∈ mid, x ≠ "\\." ∧ (pySplit '\t' x).length = n :=
      fun x hx => hmid x (List.mem_cons_of_mem _ hx)
    have hlen' : ¬ (pySplit '\t' l).length ≠ n := fun h => h hlen
    simp only [List.cons_append, iterCopyRowsGo, hne, if_false, ite_false, hlen',
      List.map_cons, List.append_eq]
    rw [ih _ hmid']
    simp [List.append_assoc]

/-- Inside the matching block, well-shaped rows are consumed until end of
file; without a terminator this is the block-unterminated fatal error. -/
theorem iterGo_noTerm (path expected : String) (mid : List String) (n : Nat)
    (acc : List (List String))
    (hmid : ∀ l ∈ mid, l ≠ "\\." ∧ (pySplit '\t' l).length = n) :
    iterCopyRowsGo path expected mid true (some n) acc
      = .error ("COPY block in " ++ path ++ " did not terminate with \\\\.") := by
  induction mid generalizing acc with
  | nil => simp [iterCopyRowsGo]
  | cons l mid ih =>
    obtain ⟨hne, hlen⟩ := hmid l (List.mem_cons_self _ _)
    have hmid' : ∀ x ∈ mid, x ≠ "\\." ∧ (pySplit '\t' x).length = n :=
      fun x hx => hmid x (List.mem_cons_of_mem _ hx)
    have hlen' : ¬ (pySplit '\t' l).length ≠ n := fun h => h hlen
    simp only [iterCopyRowsGo, hne, if_false, ite_false, hlen', List.append_eq]
    exact ih _ hmid'

/-- C1: for every input file and expected table name, the bulk-block reader
`iter_copy_rows` yields exactly the tab-split data rows lying between the
first header line announcing a COPY block for the exact requested table and
the first subsequent line equal to `\.`, in file order; lines before a
matching header (including whole blocks of other tables) are skipped and
never yielded, and once the terminator is reached the reader stops without
consuming the rest of the file (`post` is arbitrary, malformed content
included). -/
theorem iter_copy_rows_well_formed (path expected cols hline : String)
    (pre mid post : List String) (n : Nat)
    (hpre : ∀ l ∈ pre, (copyStartMatch l).map Prod.fst ≠ some expected)
    (hh : copyStartMatch hline = some (expected, cols))
    (hn : (colsList cols).length = n)
    (hmid : ∀ l ∈ mid, l ≠ "\\." ∧ (pySplit '\t' l).length = n) :
    iter_copy_rows path (pre ++ hline :: (mid ++ "\\." :: post)) expected
      = .ok (mid.map (pySplit '\t')) := by
  unfold iter_copy_rows
  rw [iterGo_skip path expected pre _ none [] hpre]
  simp only [iterCopyRowsGo, hh, if_pos rfl, hn]
  simpa using iterGo_collect path expected mid post n [] hmid

/-- Witness for C1 at a concrete file: a leading junk line, a full block of
another table, the matching header, two data rows, the terminator, and
trailing garbage the reader never reads. -/
theorem iter_copy_rows_well_formed_witness :
    iter_copy_rows "p" ["junk", "COPY public.other_table (x, y) FROM stdin;",
        "1\t2", "\\.",
        "COPY public.business_business (id, uid, business_name) FROM stdin;",
        "7\tu\tAcme Foods", "8\tv\tAcme Bar", "\\.", "garbage \t after"]
      "business_business" = .ok [["7", "u", "Acme Foods"], ["8", "v", "Acme Bar"]] := by
  have h := iter_copy_rows_well_formed "p" "business_business"
    "id, uid, business_name"
    "COPY public.business_business (id, uid, business_name) FROM stdin;"
    ["junk", "COPY public.other_table (x, y) FROM stdin;", "1\t2", "\\."]
    ["7\tu\tAcme Foods", "8\tv\tAcme Bar"] ["garbage \t after"] 3
    (by decide) (by decide) (by decide) (by decide)
  simpa using h

/-- Inside the matching block, the first row whose tab-split width differs
from the declared column count is a fatal error, whatever comes after it. -/
theorem iterGo_badRow (path expected : String) (mid : List String) (bad : String)
    (rest : List String) (n : Nat) (acc : List (List String))
    (hmid : ∀ l ∈ mid, l ≠ "\\." ∧ (pySplit '\t' l).length = n)
    (hbadne : bad ≠ "\\.") (hbadlen : (pySplit '\t' bad).length ≠ n) :
    iterCopyRowsGo path expected (mid ++ bad :: rest) true (some n) acc
      = .error ("unexpected column count in " ++ path ++ ": got "
          ++ toString (pySplit '\t' bad).length ++ " expected " ++ toString n) := by
  induction mid generalizing acc with
  | nil =>
    simp only [List.nil_append, iterCopyRowsGo, hbadne, if_false, ite_false]
    rw [if_pos hbadlen]
  | cons l mid ih =>
    obtain ⟨hne, hlen⟩ := hmid l (List.mem_cons_self _ _)
    have hmid' : ∀ x ∈ mid, x ≠ "\\." ∧ (pySplit '\t' x).length = n :=
      fun x hx => hmid x (List.mem_cons_of_mem _ hx)
    have hlen' : ¬ (pySplit '\t' l).length ≠ n := fun h => h hlen
    simp only [List.cons_append, iterCopyRowsGo, hne, if_false, ite_false, hlen',
      List.append_eq]
    exact ih _ hmid'

/-- C6: consumed to exhaustion, the reader (a) fails with the block-not-found
fatal error when no line of the file makes the header regex capture the
requested table, (b) fails with the did-not-terminate fatal error when a
matching header is found but no later line equals `\.`, and (c) fails with the
column-count fatal error — instead of skipping — on the first data row whose
tab-split field count differs from the header's declared comma-separated
column count. -/
theorem iter_copy_rows_errors (path expected : String) :
    (∀ file : List String,
      (∀ l ∈ file, (copyStartMatch l).map Prod.fst ≠ some expected) →
      iter_copy_rows path file expected
        = .error ("COPY block not found in " ++ path)) ∧
    (∀ (pre : List String) (hline cols : String) (n : Nat) (mid : List String),
      (∀ l ∈ pre, (copyStartMatch l).map Prod.fst ≠ some expected) →
      copyStartMatch hline = some (expected, cols) →
      (colsList cols).length = n →
      (∀ l ∈ mid, l ≠ "\\." ∧ (pySplit '\t' l).length = n) →
      iter_copy_rows path (pre ++ hline :: mid) expected
        = .error ("COPY block in " ++ path ++ " did not terminate with \\\\.")) ∧
    (∀ (pre : List String) (hline cols : String) (n : Nat)
        (mid : List String) (bad : String) (rest : List String),
      (∀ l ∈ pre, (copyStartMatch l).map Prod.fst ≠ some expected) →
      copyStartMatch hline = some (expected, cols) →
      (colsList cols).length = n →
      (∀ l ∈ mid, l ≠ "\\." ∧ (pySplit '\t' l).length = n) →
      bad ≠ "\\." → (pySplit '\t' bad).length ≠ n →
      iter_copy_rows path (pre ++ hline :: (mid ++ bad :: rest)) expected
        = .error ("unexpected column count in " ++ path ++ ": got "
            ++ toString (pySplit '\t' bad).length ++ " expected " ++ toString n)) := by
  refine ⟨fun file hfile => ?_, fun pre hline cols n mid hpre hh hn hmid => ?_,
    fun pre hline cols n mid bad rest hpre hh hn hmid hbadne hbadlen => ?_⟩
  · have h := iterGo_skip path expected file [] none [] hfile
    rw [List.append_nil] at h
    unfold iter_copy_rows
    rw [h]
    rfl
  · unfold iter_copy_rows
    rw [iterGo_skip path expected pre _ none [] hpre]
    simp only [iterCopyRowsGo, hh, if_pos rfl, hn]
    exact iterGo_noTerm path expected mid n [] hmid
  · unfold iter_copy_rows
    rw [iterGo_skip path expected pre _ none [] hpre]
    simp only [iterCopyRowsGo, hh, if_pos rfl, hn]
    exact iterGo_badRow path expected mid bad rest n [] hmid hbadne hbadlen

/-- Witness for C6: each of the three error paths exercised on a concrete
file. -/
theorem iter_copy_rows_errors_witness :
    iter_copy_rows "p" ["junk", "COPY public.other_table (x) FROM stdin;", "1", "\\."]
        "reviews_review" = .error ("COPY block not found in p") ∧
    iter_copy_rows "p" ["COPY public.reviews_review (a, b) FROM stdin;", "1\t2"]
        "reviews_review"
      = .error ("COPY block in p did not terminate with \\\\.") ∧
    iter_copy_rows "p" ["COPY public.reviews_review (a, b) FROM stdin;", "1\t2", "1\t2\t3", "\\."]
        "reviews_review"
      = .error ("unexpected column count in p: got 3 expected 2") := by
  refine ⟨?_, ?_, ?_⟩
  · exact (iter_copy_rows_errors "p" "reviews_review").1
      ["junk", "COPY public.other_table (x) FROM stdin;", "1", "\\."] (by decide)
  · exact (iter_copy_rows_errors "p" "reviews_review").2.1
      [] "COPY public.reviews_review (a, b) FROM stdin;" "a, b" 2 ["1\t2"]
      (by decide) (by decide) (by decide) (by decide)
  · have h := (iter_copy_rows_errors "p" "reviews_review").2.2
      [] "COPY public.reviews_review (a, b) FROM stdin;" "a, b" 2 ["1\t2"] "1\t2\t3" []
      (by decide) (by decide) (by decide) (by decide) (by decide) (by decide)
    simpa using h

/-- C8, counterexample: on the input `"hello"`, three spaces, three newlines,
`"world"`, two spaces, `normalize_text` does NOT return `"hello"` immediately
followed by the newline marker — the single space left by collapsing the run
of spaces sits between `"hello"` and the (escaped or real) newline, because
`[ \t]+` is collapsed before `\n+` and `strip` only trims the ends.  This
holds for both values of `keep_newlines`. -/
theorem normalize_text_example_counterexample :
    normalize_text "hello   \n\n\nworld  " false ≠ "hello\\nworld" ∧
    normalize_text "hello   \n\n\nworld  " true ≠ "hello\nworld" := by
  decide

/-- C8, amended: with whitespace normalization enabled, the input collapses to
`"hello"`, one space, the two-character literal backslash-n, `"world"` when
`keep_newlines` is false, and to `"hello"`, one space, a single newline
character, `"world"` when it is true; leading and trailing whitespace is
trimmed in both cases. -/
theorem normalize_text_example :
    normalize_text "hello   \n\n\nworld  " false = "hello \\nworld" ∧
    normalize_text "hello   \n\n\nworld  " true = "hello \nworld" := by
  decide

/-- C10: `decode_copy_text` applies its four replacements sequentially with
`\\` first, so the three-character raw field backslash-backslash-t — exactly
what COPY escaping produces for the two-character text backslash-t — decodes
to a single TAB character rather than back to the original two characters:
decoding composed after COPY escaping is not the identity on every string. -/
theorem decode_copy_text_not_inverse :
    copyEscape "\\t" = "\\\\t" ∧
    decode_copy_text "\\\\t" = "\t" ∧
    decode_copy_text (copyEscape "\\t") ≠ "\\t" := by
  decide

/-- Looking up the key just inserted returns the inserted value. -/
theorem dictGet_dictInsert_self {α : Type} (k : Int) (v : α) (d : List (Int × α)) :
    dictGet (dictInsert k v d) k = some v := by
  induction d with
  | nil => simp [dictInsert, dictGet]
  | cons p d ih =>
    obtain ⟨k', v'⟩ := p
    by_cases h : k' = k
    · subst h; simp [dictInsert, dictGet]
    · simp only [dictInsert, if_neg h]
      simpa [dictGet, List.find?, h] using ih

/-- Inserting at one key leaves every other key's lookup unchanged. -/
theorem dictGet_dictInsert_ne {α : Type} (k k' : Int) (v : α) (d : List (Int × α))
    (h : k' ≠ k) : dictGet (dictInsert k v d) k' = dictGet d k' := by
  have h' : k ≠ k' := fun hc => h hc.symm
  induction d with
  | nil => simp [dictInsert, dictGet, List.find?, h']
  | cons p d ih =>
    obtain ⟨k0, v0⟩ := p
    by_cases h0 : k0 = k
    · subst h0
      simp [dictInsert, dictGet, List.find?, h']
    · simp only [dictInsert, if_neg h0]
      by_cases h1 : k0 = k'
      · subst h1
        simp [dictGet, List.find?]
      · simp only [dictGet, List.find?] at ih ⊢
        rw [show (decide (k0 = k')) = false from decide_eq_false h1]
        exact ih

/-- Every entry of `dictInsert k v d` carries either the new value or one
already present in `d`. -/
theorem mem_dictInsert {α : Type} (k : Int) (v : α) (d : List (Int × α)) :
    ∀ p ∈ dictInsert k v d, p.2 = v ∨ p ∈ d := by
  induction d with
  | nil =>
    intro p hp
    cases hp with
    | head => left; rfl
    | tail _ hp => cases hp
  | cons q d ih =>
    obtain ⟨k', v'⟩ := q
    intro p hp
    by_cases h : k' = k
    · subst h
      simp only [dictInsert, if_pos rfl] at hp
      cases hp with
      | head => left; rfl
      | tail _ hp => right; exact List.mem_cons_of_mem _ hp
    · simp only [dictInsert, if_neg h] at hp
      cases hp with
      | head => right; exact List.mem_cons_self _ _
      | tail _ hp =>
        rcases ih p hp with h2 | h2
        · left; exact h2
        · right; exact List.mem_cons_of_mem _ h2

/-- Inserting at a key already present keeps the key list unchanged. -/
theorem dictKeys_dictInsert_mem {α : Type} (k : Int) (v : α) (d : List (Int × α))
    (hk : k ∈ dictKeys d) : dictKeys (dictInsert k v d) = dictKeys d := by
  induction d with
  | nil => simp [dictKeys] at hk
  | cons p d ih =>
    obtain ⟨k', v'⟩ := p
    by_cases h : k' = k
    · subst h; simp [dictInsert, dictKeys]
    · have hk' : k ∈ dictKeys d := by
        simp only [dictKeys, List.map_cons, List.mem_cons] at hk
        exact hk.resolve_left fun hc => h hc.symm
      have h2 := ih hk'
      simp only [dictKeys] at h2
      simp only [dictInsert, if_neg h, dictKeys, List.map_cons, h2]

/-- Inserting at a fresh key appends it to the key list. -/
theorem dictKeys_dictInsert_not_mem {α : Type} (k : Int) (v : α) (d : List (Int × α))
    (hk : k ∉ dictKeys d) : dictKeys (dictInsert k v d) = dictKeys d ++ [k] := by
  induction d with
  | nil => simp [dictInsert, dictKeys]
  | cons p d ih =>
    obtain ⟨k', v'⟩ := p
    have h : k' ≠ k := by
      intro hc
      exact hk (by simp [dictKeys, hc])
    have hk' : k ∉ dictKeys d := by
      intro hc
      exact hk (by simp only [dictKeys, List.map_cons, List.mem_cons]; right; exact hc)
    have h2 := ih hk'
    simp only [dictKeys] at h2
    simp only [dictInsert, if_neg h, dictKeys, List.map_cons, h2, List.cons_append]

/-- A successful lookup means the key is present. -/
theorem mem_dictKeys_of_dictGet {α : Type} (d : List (Int × α)) (k : Int) (v : α)
    (h : dictGet d k = some v) : k ∈ dictKeys d := by
  induction d with
  | nil => simp [dictGet] at h
  | cons p d ih =>
    obtain ⟨k', v'⟩ := p
    by_cases hk : k' = k
    · subst hk; simp [dictKeys]
    · simp only [dictGet, List.find?] at h
      rw [show (decide (k' = k)) = false from decide_eq_false hk] at h
      simp only [dictKeys, List.map_cons, List.mem_cons]
      right
      exact ih h

/-- C2: a reviews row of full width whose business-id field (position 11) is
the NULL literal or decodes to a different business, or whose location-id
field (position 12) is the NULL literal or decodes to an id outside the known
set, is silently excluded — no error, no write, no counter change; an
accepted row is written exactly once, to the stream keyed by its own location
id, and increments only that location's counter, leaving every other stream
and counter untouched.  (A field equal to `\N` never decodes to an integer,
so the NULL cases are disjoint from the integer-valued hypotheses.) -/
theorem export_reviews_row_filter (business_id : Int)
    (loc_by_id : List (Int × Location)) (loc_ids : List Int) (nw kn : Bool)
    (ln : Nat) (parts : List String) (st : ScanState)
    (h17 : parts.length = 17) :
    (parts.getD 11 "" = "\\N" →
      processRow business_id loc_by_id loc_ids nw kn ln parts st = (none, st)) ∧
    (∀ b : Int, pyInt (parts.getD 11 "") = some b → b ≠ business_id →
      processRow business_id loc_by_id loc_ids nw kn ln parts st = (none, st)) ∧
    (pyInt (parts.getD 11 "") = some business_id → parts.getD 12 "" = "\\N" →
      processRow business_id loc_by_id loc_ids nw kn ln parts st = (none, st)) ∧
    (∀ lid : Int, pyInt (parts.getD 11 "") = some business_id →
      pyInt (parts.getD 12 "") = some lid → lid ∉ loc_ids →
      processRow business_id loc_by_id loc_ids nw kn ln parts st = (none, st)) ∧
    (∀ (lid : Int) (loc : Location) (stream : List (List String)) (c : Nat),
      pyInt (parts.getD 11 "") = some business_id →
      pyInt (parts.getD 12 "") = some lid → lid ∈ loc_ids →
      dictGet loc_by_id lid = some loc → dictGet st.writers lid = some stream →
      dictGet st.counts lid = some c →
      processRow business_id loc_by_id loc_ids nw kn ln parts st
        = (none,
           ⟨dictInsert lid (stream ++ [renderRow lid loc.name fun i =>
              fieldDecode nw kn (parts.getD i "")]) st.writers,
            dictInsert lid (c + 1) st.counts⟩) ∧
      dictGet (dictInsert lid (stream ++ [renderRow lid loc.name fun i =>
          fieldDecode nw kn (parts.getD i "")]) st.writers) lid
        = some (stream ++ [renderRow lid loc.name fun i =>
            fieldDecode nw kn (parts.getD i "")]) ∧
      dictGet (dictInsert lid (c + 1) st.counts) lid = some (c + 1) ∧
      (∀ k : Int, k ≠ lid →
        dictGet (dictInsert lid (stream ++ [renderRow lid loc.name fun i =>
            fieldDecode nw kn (parts.getD i "")]) st.writers) k
          = dictGet st.writers k ∧
        dictGet (dictInsert lid (c + 1) st.counts) k = dictGet st.counts k)) := by
  have h17' : ¬ parts.length ≠ 17 := fun h => h h17
  have hNull : pyInt "\\N" = none := by decide
  refine ⟨?_, ?_, ?_, ?_, ?_⟩
  · intro h11
    simp only [processRow, h17', ite_false, h11, if_pos rfl]
    simp
  · intro b hb hbne
    have h11 : parts.getD 11 "" ≠ "\\N" := by
      intro hc; rw [hc, hNull] at hb; exact Option.noConfusion hb
    simp only [processRow, h17', ite_false, h11, hb, hbne, if_false]
    simp
    intro h
    exact absurd h hbne
  · intro hb h12
    have h11 : parts.getD 11 "" ≠ "\\N" := by
      intro hc; rw [hc, hNull] at hb; exact Option.noConfusion hb
    simp only [processRow, h17', ite_false, h11, hb, if_pos rfl, h12]
    simp
  · intro lid hb hl hnotin
    have h11 : parts.getD 11 "" ≠ "\\N" := by
      intro hc; rw [hc, hNull] at hb; exact Option.noConfusion hb
    have h12 : parts.getD 12 "" ≠ "\\N" := by
      intro hc; rw [hc, hNull] at hl; exact Option.noConfusion hl
    simp only [processRow, h17', ite_false, h11, hb, if_pos rfl, h12, hl, hnotin]
    simp
  · intro lid loc stream c hb hl hin hloc hw hc
    have h11 : parts.getD 11 "" ≠ "\\N" := by
      intro hx; rw [hx, hNull] at hb; exact Option.noConfusion hb
    have h12 : parts.getD 12 "" ≠ "\\N" := by
      intro hx; rw [hx, hNull] at hl; exact Option.noConfusion hl
    have hnn : ¬ lid ∉ loc_ids := fun h => h hin
    refine ⟨?_, dictGet_dictInsert_self _ _ _, dictGet_dictInsert_self _ _ _,
      fun k hk => ⟨dictGet_dictInsert_ne _ _ _ _ hk, dictGet_dictInsert_ne _ _ _ _ hk⟩⟩
    simp only [processRow, h17', ite_false, h11, hb, if_pos rfl, h12, hl, hnn, hloc, hw, hc]
    simp

/-- Witness for C2: a concrete accepted row (business 7, location 3) is
written once to location 3's stream and bumps its counter from 0 to 1. -/
theorem export_reviews_row_filter_witness :
    processRow 7 [(3, ⟨3, "Downtown", 7⟩)] [3] true false 2
        ["0", "uid1", "google", "Title", "Text", "http://u", "5", "Auth",
         "2020-01-01", "ok", "ts", "7", "3", "b", "h", "a", "raw"]
        ⟨[(3, [csvFieldnames])], [(3, 0)]⟩
      = (none,
         ⟨dictInsert 3 ([csvFieldnames] ++ [renderRow 3 "Downtown" fun i =>
            fieldDecode true false ((["0", "uid1", "google", "Title", "Text",
              "http://u", "5", "Auth", "2020-01-01", "ok", "ts", "7", "3", "b",
              "h", "a", "raw"] : List String).getD i "")]) [(3, [csvFieldnames])],
          dictInsert 3 (0 + 1) [(3, 0)]⟩) :=
  ((export_reviews_row_filter 7 [(3, ⟨3, "Downtown", 7⟩)] [3] true false 2
      ["0", "uid1", "google", "Title", "Text", "http://u", "5", "Auth",
       "2020-01-01", "ok", "ts", "7", "3", "b", "h", "a", "raw"]
      ⟨[(3, [csvFieldnames])], [(3, 0)]⟩ (by decide)).2.2.2.2
    3 ⟨3, "Downtown", 7⟩ [csvFieldnames] 0 (by decide) (by decide) (by decide)
    (by decide) (by decide) (by decide)).1

/-- A file none of whose lines starts with the reviews COPY header leaves the
review scan in its initial state and raises nothing. -/
theorem reviewScanGo_noHeader (bid : Int) (locById : List (Int × Location))
    (locIds : List Int) (nw kn : Bool) (file : List String)
    (hfile : ∀ l ∈ file, ("COPY public.reviews_review ".toList.isPrefixOf l.toList) = false) :
    ∀ (ln : Nat) (st : ScanState),
      reviewScanGo bid locById locIds nw kn file false ln st = (none, st) := by
  induction file with
  | nil => intro ln st; rfl
  | cons line rest ih =>
    intro ln st
    have hl := hfile line (List.mem_cons_self _ _)
    have hrest : ∀ x ∈ rest, ("COPY public.reviews_review ".toList.isPrefixOf x.toList) = false :=
      fun x hx => hfile x (List.mem_cons_of_mem _ hx)
    simp only [reviewScanGo, hl, if_false, ite_false, Bool.false_eq_true]
    exact ih hrest _ _

/-- Folding dictionary insertions of values satisfying `P` over a seed whose
values satisfy `P` yields a dictionary whose values satisfy `P`. -/
theorem foldl_dictInsert_value {α β : Type} (P : β → Prop) (v : β) (key : α → Int)
    (hv : P v) :
    ∀ (xs : List α) (d : List (Int × β)), (∀ p ∈ d, P p.2) →
      ∀ p ∈ xs.foldl (fun d x => dictInsert (key x) v d) d, P p.2 := by
  intro xs
  induction xs with
  | nil => intro d hd p hp; exact hd p hp
  | cons x xs ih =>
    intro d hd p hp
    refine ih _ ?_ p hp
    intro q hq
    rcases mem_dictInsert (key x) v d q hq with h | h
    · rw [h]; exact hv
    · exact hd q h

/-- C4, counterexample: on a reviews fragment containing no COPY header for
the reviews table, `export_reviews` completes with no fatal error, a zero
count for every location, and a "done: exported 0" summary — it does not fail
with the bulk-block reader's block-not-found error. -/
theorem export_reviews_no_block_counterexample :
    (export_reviews 7 [⟨3, "Downtown", 7⟩] "/tmp/out" true false 0
        ["no copy header here", "1\t2"]).err = none ∧
    (export_reviews 7 [⟨3, "Downtown", 7⟩] "/tmp/out" true false 0
        ["no copy header here", "1\t2"]).counts = [(3, 0)] ∧
    (export_reviews 7 [⟨3, "Downtown", 7⟩] "/tmp/out" true false 0
        ["no copy header here", "1\t2"]).stdoutLog
      = ["done: exported 0 reviews to /tmp/out", "- loc 3 (Downtown): 0"] := by
  decide

/-- C4, amended: `export_reviews` scans the reviews fragment itself with a
`startswith` test for the reviews COPY header instead of going through
`iter_copy_rows`, so it does not inherit the reader's error contract: when no
line of the fragment starts with the header, the run completes normally —
no error, headers written but no data rows, and every per-location count
zero. -/
theorem export_reviews_without_header (business_id : Int) (locations : List Location)
    (out_dir : String) (nw kn : Bool) (pe : Int) (file : List String)
    (hfile : ∀ l ∈ file, ("COPY public.reviews_review ".toList.isPrefixOf l.toList) = false) :
    (export_reviews business_id locations out_dir nw kn pe file).err = none ∧
    (export_reviews business_id locations out_dir nw kn pe file).writers
      = open_writers locations ∧
    (∀ p ∈ (export_reviews business_id locations out_dir nw kn pe file).counts,
      p.2 = 0) ∧
    sumCounts (export_reviews business_id locations out_dir nw kn pe file).counts
      = 0 := by
  have hzero : ∀ p ∈ (dictKeys (locations.foldl (fun d l => dictInsert l.id l d) [])).foldl
      (fun d lid => dictInsert lid (0 : Nat) d) ([] : List (Int × Nat)), p.2 = (0 : Nat) :=
    foldl_dictInsert_value (fun n => n = 0) 0 (fun x => x) rfl _ [] (fun p hp => by cases hp)
  have hscan := reviewScanGo_noHeader business_id
    (locations.foldl (fun d l => dictInsert l.id l d) [])
    (dictKeys (locations.foldl (fun d l => dictInsert l.id l d) [])) nw kn file hfile 0
    ⟨open_writers locations,
     (dictKeys (locations.foldl (fun d l => dictInsert l.id l d) [])).foldl
       (fun d lid => dictInsert lid 0 d) []⟩
  have hsum : sumCounts ((dictKeys (locations.foldl (fun d l => dictInsert l.id l d) [])).foldl
      (fun d lid => dictInsert lid (0 : Nat) d) ([] : List (Int × Nat))) = 0 := by
    simp only [sumCounts]
    refine List.sum_eq_zero ?_
    intro x hx
    rcases List.mem_map.mp hx with ⟨p, hp, hpx⟩
    rw [← hpx]
    exact hzero p hp
  simp only [export_reviews, exportScan, hscan]
  exact ⟨trivial, trivial, hzero, hsum⟩

/-- Witness for the amended C4 at a concrete headerless fragment. -/
theorem export_reviews_without_header_witness :
    (export_reviews 7 [⟨3, "Downtown", 7⟩] "/tmp/out" true false 0 ["junk"]).err
      = none ∧
    (export_reviews 7 [⟨3, "Downtown", 7⟩] "/tmp/out" true false 0 ["junk"]).writers
      = open_writers [⟨3, "Downtown", 7⟩] ∧
    sumCounts (export_reviews 7 [⟨3, "Downtown", 7⟩] "/tmp/out" true false 0
        ["junk"]).counts = 0 := by
  have h := export_reviews_without_header 7 [⟨3, "Downtown", 7⟩] "/tmp/out" true false 0
    ["junk"] (by decide)
  exact ⟨h.1, h.2.1, h.2.2.2⟩

/-- Mapping `streamCount` over a dict commutes with insertion. -/
theorem map_streamCount_dictInsert (k : Int) (v : List (List String))
    (d : List (Int × List (List String))) :
    (dictInsert k v d).map streamCount
      = dictInsert k (v.length - 1) (d.map streamCount) := by
  induction d with
  | nil => simp [dictInsert, streamCount]
  | cons p d ih =>
    obtain ⟨k', v'⟩ := p
    by_cases h : k' = k
    · subst h; simp [dictInsert, streamCount]
    · simp [dictInsert, streamCount, if_neg h, ih]

/-- Lookup in a `streamCount`-mapped dict is the mapped lookup. -/
theorem dictGet_map_streamCount (d : List (Int × List (List String))) (k : Int) :
    dictGet (d.map streamCount) k = (dictGet d k).map (fun l => l.length - 1) := by
  induction d with
  | nil => simp [dictGet]
  | cons p d ih =>
    obtain ⟨k', v'⟩ := p
    by_cases h : k' = k
    · subst h; simp [dictGet, streamCount, List.find?]
    · simp only [List.map_cons, dictGet, streamCount, List.find?] at ih ⊢
      rw [show (decide (k' = k)) = false from decide_eq_false h]
      exact ih

/-- A successful lookup value is the value of some entry of the dict. -/
theorem dictGet_value_mem {α : Type} (d : List (Int × α)) (k : Int) (v : α)
    (h : dictGet d k = some v) : ∃ p ∈ d, p.2 = v := by
  unfold dictGet at h
  rcases Option.map_eq_some'.mp h with ⟨q, hq, hv⟩
  exact ⟨q, List.mem_of_find?_eq_some hq, hv⟩

/-- Key list of a fold of insertions whose keys are pairwise distinct and
fresh for the seed: the keys are appended in iteration order. -/
theorem foldl_dictInsert_keys {α β : Type} (key : α → Int) (val : α → β) :
    ∀ (xs : List α) (d : List (Int × β)), (xs.map key).Nodup →
      (∀ x ∈ xs, key x ∉ dictKeys d) →
      dictKeys (xs.foldl (fun d x => dictInsert (key x) (val x) d) d)
        = dictKeys d ++ xs.map key := by
  intro xs
  induction xs with
  | nil => intro d _ _; simp
  | cons x xs ih =>
    intro d hnd hfresh
    rw [List.map_cons, List.nodup_cons] at hnd
    obtain ⟨hx1, hnd'⟩ := hnd
    have hx : key x ∉ dictKeys d := hfresh x (List.mem_cons_self _ _)
    have h1 : dictKeys (dictInsert (key x) (val x) d) = dictKeys d ++ [key x] :=
      dictKeys_dictInsert_not_mem _ _ _ hx
    have hfresh' : ∀ y ∈ xs, key y ∉ dictKeys (dictInsert (key x) (val x) d) := by
      intro y hy
      rw [h1]
      intro hmem
      rcases List.mem_append.mp hmem with h | h
      · exact hfresh y (List.mem_cons_of_mem _ hy) h
      · have hyx : key y = key x := by simpa using h
        exact hx1 (hyx ▸ List.mem_map_of_mem key hy)
    simp only [List.foldl_cons]
    rw [ih _ hnd' hfresh', h1, List.map_cons]
    simp

/-- Folding constant-value insertions commutes with the `streamCount` map. -/
theorem foldl_dictInsert_map_streamCount {γ : Type} (key : γ → Int)
    (v : List (List String)) :
    ∀ (xs : List γ) (d : List (Int × List (List String))),
      (xs.foldl (fun d x => dictInsert (key x) v d) d).map streamCount
        = xs.foldl (fun d x => dictInsert (key x) (v.length - 1) d)
            (d.map streamCount) := by
  intro xs
  induction xs with
  | nil => intro d; rfl
  | cons x xs ih =>
    intro d
    simp only [List.foldl_cons]
    rw [ih, map_streamCount_dictInsert]

/-- One `processRow` step keeps the writers key set, and preserves both the
relation "each location's counter equals the number of data rows in its
stream (stream length minus the header row)" and the non-emptiness of every
stream. -/
theorem processRow_state_inv (bid : Int) (locById : List (Int × Location))
    (locIds : List Int) (nw kn : Bool) (ln : Nat) (parts : List String)
    (st : ScanState) :
    dictKeys (processRow bid locById locIds nw kn ln parts st).2.writers
      = dictKeys st.writers ∧
    (st.counts = st.writers.map streamCount →
     (∀ p ∈ st.writers, p.2 ≠ []) →
     (processRow bid locById locIds nw kn ln parts st).2.counts
        = (processRow bid locById locIds nw kn ln parts st).2.writers.map
            streamCount ∧
     (∀ p ∈ (processRow bid locById locIds nw kn ln parts st).2.writers, p.2 ≠ [])) := by
  unfold processRow
  by_cases h1 : parts.length ≠ 17
  · rw [if_pos h1]
    exact ⟨rfl, fun hrel hne => ⟨hrel, hne⟩⟩
  rw [if_neg h1]
  by_cases h2 : parts.getD 11 "" = "\\N"
  · rw [if_pos h2]
    exact ⟨rfl, fun hrel hne => ⟨hrel, hne⟩⟩
  rw [if_neg h2]
  cases hb : pyInt (parts.getD 11 "") with
  | none => exact ⟨rfl, fun hrel hne => ⟨hrel, hne⟩⟩
  | some b =>
    try dsimp only
    by_cases h3 : b ≠ bid
    · rw [if_pos h3]
      exact ⟨rfl, fun hrel hne => ⟨hrel, hne⟩⟩
    rw [if_neg h3]
    by_cases h4 : parts.getD 12 "" = "\\N"
    · rw [if_pos h4]
      exact ⟨rfl, fun hrel hne => ⟨hrel, hne⟩⟩
    rw [if_neg h4]
    cases hl : pyInt (parts.getD 12 "") with
    | none => exact ⟨rfl, fun hrel hne => ⟨hrel, hne⟩⟩
    | some lid =>
      try dsimp only
      by_cases h5 : lid ∉ locIds
      · rw [if_pos h5]
        exact ⟨rfl, fun hrel hne => ⟨hrel, hne⟩⟩
      rw [if_neg h5]
      cases hg1 : dictGet locById lid with
      | none => exact ⟨rfl, fun hrel hne => ⟨hrel, hne⟩⟩
      | some loc =>
        try dsimp only
        cases hg2 : dictGet st.writers lid with
        | none => exact ⟨rfl, fun hrel hne => ⟨hrel, hne⟩⟩
        | some stream =>
          try dsimp only
          cases hg3 : dictGet st.counts lid with
          | none => exact ⟨rfl, fun hrel hne => ⟨hrel, hne⟩⟩
          | some c =>
            try dsimp only
            refine ⟨dictKeys_dictInsert_mem _ _ _
              (mem_dictKeys_of_dictGet _ _ _ hg2), ?_⟩
            intro hrel hne
            have hstream_ne : stream ≠ [] := by
              rcases dictGet_value_mem st.writers lid stream hg2 with ⟨q, hqmem, hqv⟩
              exact hqv ▸ hne q hqmem
            have hlen : 1 ≤ stream.length := List.length_pos.mpr hstream_ne
            have hc : stream.length - 1 = c := by
              have h0 := hg3
              rw [hrel, dictGet_map_streamCount, hg2] at h0
              simpa using h0
            constructor
            · show dictInsert lid (c + 1) st.counts
                = (dictInsert lid (stream ++ [renderRow lid loc.name fun i =>
                    fieldDecode nw kn (parts.getD i "")]) st.writers).map
                    streamCount
              rw [map_streamCount_dictInsert, ← hrel]
              have hlen2 : (stream ++ [renderRow lid loc.name fun i =>
                  fieldDecode nw kn (parts.getD i "")]).length - 1 = c + 1 := by
                rw [List.length_append, List.length_singleton]
                omega
              rw [hlen2]
            · intro p hp
              rcases mem_dictInsert _ _ _ p hp with h | h
              · rw [h]
                intro hcontra
                have hlc := congrArg List.length hcontra
                rw [List.length_append, List.length_singleton] at hlc
                simp at hlc
              · exact hne p h

/-- The review scan loop preserves the writers key set and the
counter-stream relation, whether it ends normally or on a fatal error. -/
theorem reviewScanGo_state_inv (bid : Int) (locById : List (Int × Location))
    (locIds : List Int) (nw kn : Bool) :
    ∀ (file : List String) (inCopy : Bool) (ln : Nat) (st : ScanState),
      dictKeys (reviewScanGo bid locById locIds nw kn file inCopy ln st).2.writers
        = dictKeys st.writers ∧
      (st.counts = st.writers.map streamCount →
       (∀ p ∈ st.writers, p.2 ≠ []) →
       (reviewScanGo bid locById locIds nw kn file inCopy ln st).2.counts
          = (reviewScanGo bid locById locIds nw kn file inCopy ln st).2.writers.map
              streamCount ∧
       (∀ p ∈ (reviewScanGo bid locById locIds nw kn file inCopy ln st).2.writers,
          p.2 ≠ [])) := by
  intro file
  induction file with
  | nil => intro inCopy ln st; exact ⟨rfl, fun hrel hne => ⟨hrel, hne⟩⟩
  | cons line rest ih =>
    intro inCopy ln st
    cases inCopy with
    | false =>
      simp only [reviewScanGo]
      split
      · exact ih true (ln + 1) st
      · exact ih false (ln + 1) st
    | true =>
      simp only [reviewScanGo]
      split
      · exact ⟨rfl, fun hrel hne => ⟨hrel, hne⟩⟩
      · rcases hpr : processRow bid locById locIds nw kn (ln + 1)
          (pySplit '\t' line) st with ⟨oe, st'⟩
        have hp := processRow_state_inv bid locById locIds nw kn (ln + 1)
          (pySplit '\t' line) st
        rw [hpr] at hp
        cases oe with
        | some e =>
          exact ⟨hp.1, fun hrel hne => hp.2 hrel hne⟩
        | none =>
          refine ⟨?_, ?_⟩
          · rw [(ih true (ln + 1) st').1]
            exact hp.1
          · intro hrel hne
            exact (ih true (ln + 1) st').2 (hp.2 hrel hne).1 (hp.2 hrel hne).2

/-- Field-level description of `export_reviews`: the final writers, counters
and close list come from the scan state on both exit paths, the error field
is the scan's error, the function's Python return value is always `None`, and
the summary is printed exactly on the no-error path. -/
theorem export_reviews_fields (business_id : Int) (locations : List Location)
    (out_dir : String) (nw kn : Bool) (pe : Int) (file : List String) :
    (export_reviews business_id locations out_dir nw kn pe file).writers
      = (exportScan business_id locations nw kn file).2.writers ∧
    (export_reviews business_id locations out_dir nw kn pe file).counts
      = (exportScan business_id locations nw kn file).2.counts ∧
    (export_reviews business_id locations out_dir nw kn pe file).closed
      = dictKeys (exportScan business_id locations nw kn file).2.writers ∧
    (export_reviews business_id locations out_dir nw kn pe file).ret = none ∧
    (export_reviews business_id locations out_dir nw kn pe file).err
      = (exportScan business_id locations nw kn file).1 ∧
    ((exportScan business_id locations nw kn file).1 = none →
      (export_reviews business_id locations out_dir nw kn pe file).stdoutLog
        = ("done: exported "
            ++ toString (sumCounts (exportScan business_id locations nw kn file).2.counts)
            ++ " reviews to " ++ out_dir)
          :: locations.map (fun loc => "- loc " ++ toString loc.id ++ " ("
              ++ loc.name ++ "): "
              ++ toString (countOf (exportScan business_id locations nw kn file).2.counts
                    loc.id))) := by
  unfold export_reviews
  dsimp only
  cases hoe : (exportScan business_id locations nw kn file).1 with
  | some e =>
    refine ⟨rfl, rfl, rfl, rfl, rfl, ?_⟩
    intro h
    exact Option.noConfusion h
  | none => exact ⟨rfl, rfl, rfl, rfl, rfl, fun _ => rfl⟩

/-- The initial dictionaries of the export: with pairwise-distinct location
ids, the key lists of `loc_by_id` and of the opened writers are the location
ids in order, the zeroed counters are the writers mapped through
`streamCount`, and every opened stream is non-empty (it holds the header). -/
theorem exportScan_init (locations : List Location)
    (hids : (locations.map Location.id).Nodup) :
    dictKeys (locations.foldl (fun d l => dictInsert l.id l d) [])
      = locations.map Location.id ∧
    dictKeys (open_writers locations) = locations.map Location.id ∧
    (dictKeys (locations.foldl (fun d l => dictInsert l.id l d) [])).foldl
        (fun d lid => dictInsert lid (0 : Nat) d) []
      = (open_writers locations).map streamCount ∧
    (∀ p ∈ open_writers locations, p.2 ≠ []) := by
  have hkeys1 : dictKeys (locations.foldl (fun d l => dictInsert l.id l d) [])
      = locations.map Location.id := by
    have h := foldl_dictInsert_keys Location.id (fun l => l) locations [] hids
      (by intro x _ hc; cases hc)
    simpa [dictKeys] using h
  have hkeys2 : dictKeys (open_writers locations) = locations.map Location.id := by
    have h := foldl_dictInsert_keys Location.id (fun _ => [csvFieldnames]) locations []
      hids (by intro x _ hc; cases hc)
    simpa [open_writers, dictKeys] using h
  refine ⟨hkeys1, hkeys2, ?_, ?_⟩
  · rw [hkeys1]
    have hmap := foldl_dictInsert_map_streamCount Location.id [csvFieldnames]
      locations []
    simp only [open_writers]
    rw [hmap]
    have : ([csvFieldnames].length - 1 : Nat) = 0 := by simp
    rw [this, List.foldl_map]
    rfl
  · exact foldl_dictInsert_value (fun l => l ≠ []) [csvFieldnames] Location.id
      (by simp) locations [] (by intro p hp; cases hp)

/-- C5: on every exit path of `export_reviews` — normal completion or a fatal
error raised mid-scan (such as a row-shape error) — the close calls performed
by the `finally` block are exactly one per opened location stream: the closed
list is the location-id list itself, duplicate-free, and coincides with the
keys of the final writers dicts, so every row written before a failure sits
in one of the closed (hence flushed) files.  Location ids are assumed
pairwise distinct (duplicate ids would make `open_writers` reopen the same
file and drop the first handle from the dict). -/
theorem export_reviews_closes_all (business_id : Int) (locations : List Location)
    (out_dir : String) (nw kn : Bool) (pe : Int) (file : List String)
    (hids : (locations.map Location.id).Nodup) :
    (export_reviews business_id locations out_dir nw kn pe file).closed
      = locations.map Location.id ∧
    (export_reviews business_id locations out_dir nw kn pe file).closed.Nodup ∧
    (export_reviews business_id locations out_dir nw kn pe file).closed
      = dictKeys (export_reviews business_id locations out_dir nw kn pe file).writers := by
  obtain ⟨hw, _, hcl, _, _, _⟩ :=
    export_reviews_fields business_id locations out_dir nw kn pe file
  obtain ⟨hk1, hk2, _, _⟩ := exportScan_init locations hids
  have hscan := (reviewScanGo_state_inv business_id
    (locations.foldl (fun d l => dictInsert l.id l d) [])
    (dictKeys (locations.foldl (fun d l => dictInsert l.id l d) [])) nw kn file false 0
    ⟨open_writers locations,
     (dictKeys (locations.foldl (fun d l => dictInsert l.id l d) [])).foldl
       (fun d lid => dictInsert lid 0 d) []⟩).1
  have hscan' : dictKeys (exportScan business_id locations nw kn file).2.writers
      = locations.map Location.id := by
    rw [show (exportScan business_id locations nw kn file)
        = reviewScanGo business_id
            (locations.foldl (fun d l => dictInsert l.id l d) [])
            (dictKeys (locations.foldl (fun d l => dictInsert l.id l d) [])) nw kn file
            false 0
            ⟨open_writers locations,
             (dictKeys (locations.foldl (fun d l => dictInsert l.id l d) [])).foldl
               (fun d lid => dictInsert lid 0 d) []⟩ from rfl]
    rw [hscan]
    exact hk2
  refine ⟨?_, ?_, ?_⟩
  · rw [hcl, hscan']
  · rw [hcl, hscan']; exact hids
  · rw [hcl, hw]

/-- Witness for C5: a concrete run that dies mid-scan on a malformed row
still closes both location streams exactly once, and the row accepted before
the failure is in the final (closed) stream state. -/
theorem export_reviews_closes_all_witness :
    (export_reviews 7 [⟨3, "Downtown", 7⟩, ⟨9, "Uptown", 7⟩] "/tmp/out" true false 0
        ["COPY public.reviews_review (id) FROM stdin;",
         "0\tu1\tg\tT\ttx\tu\t5\tA\td\tok\tts\t7\t3\tb\th\ta\tr", "short\trow"]).closed
      = [3, 9] ∧
    (export_reviews 7 [⟨3, "Downtown", 7⟩, ⟨9, "Uptown", 7⟩] "/tmp/out" true false 0
        ["COPY public.reviews_review (id) FROM stdin;",
         "0\tu1\tg\tT\ttx\tu\t5\tA\td\tok\tts\t7\t3\tb\th\ta\tr", "short\trow"]).closed.Nodup := by
  have h := export_reviews_closes_all 7 [⟨3, "Downtown", 7⟩, ⟨9, "Uptown", 7⟩]
    "/tmp/out" true false 0
    ["COPY public.reviews_review (id) FROM stdin;",
     "0\tu1\tg\tT\ttx\tu\t5\tA\td\tok\tts\t7\t3\tb\th\ta\tr", "short\trow"] (by decide)
  exact ⟨h.1, h.2.1⟩

/-- C9, counterexample: `export_reviews` does not return the final
per-location counts to its caller — even on a successful run that exported a
row (location 3's count is 1), its Python return value is `None` (the
function has no return statement; the counts only reach the caller's world
through the printed summary). -/
theorem export_reviews_ret_counterexample :
    (export_reviews 7 [⟨3, "Downtown", 7⟩] "/tmp/out" true false 0
        ["COPY public.reviews_review (id) FROM stdin;",
         "0\tu1\tg\tT\ttx\tu\t5\tA\td\tok\tts\t7\t3\tb\th\ta\tr", "\\."]).counts
      = [(3, 1)] ∧
    (export_reviews 7 [⟨3, "Downtown", 7⟩] "/tmp/out" true false 0
        ["COPY public.reviews_review (id) FROM stdin;",
         "0\tu1\tg\tT\ttx\tu\t5\tA\td\tok\tts\t7\t3\tb\th\ta\tr", "\\."]).ret
      = none := by
  decide

/-- C9, amended: `export_reviews` prints, rather than returns, the final
per-location counts (its return value is always `None`); each location's
final counter equals the number of data rows written to that location's
stream, and on normal completion the printed total is the sum of the
per-location counters.  Location ids are assumed pairwise distinct. -/
theorem export_reviews_reports_counts (business_id : Int) (locations : List Location)
    (out_dir : String) (nw kn : Bool) (pe : Int) (file : List String)
    (hids : (locations.map Location.id).Nodup) :
    (export_reviews business_id locations out_dir nw kn pe file).ret = none ∧
    (export_reviews business_id locations out_dir nw kn pe file).counts
      = (export_reviews business_id locations out_dir nw kn pe file).writers.map
          streamCount ∧
    ((export_reviews business_id locations out_dir nw kn pe file).err = none →
      (export_reviews business_id locations out_dir nw kn pe file).stdoutLog
        = ("done: exported "
            ++ toString (sumCounts
                (export_reviews business_id locations out_dir nw kn pe file).counts)
            ++ " reviews to " ++ out_dir)
          :: locations.map (fun loc => "- loc " ++ toString loc.id ++ " ("
              ++ loc.name ++ "): "
              ++ toString (countOf
                  (export_reviews business_id locations out_dir nw kn pe file).counts
                  loc.id))) := by
  obtain ⟨hw, hc, _, hret, herr, hstd⟩ :=
    export_reviews_fields business_id locations out_dir nw kn pe file
  obtain ⟨hk1, hk2, hcw, hne⟩ := exportScan_init locations hids
  have hinv := (reviewScanGo_state_inv business_id
    (locations.foldl (fun d l => dictInsert l.id l d) [])
    (dictKeys (locations.foldl (fun d l => dictInsert l.id l d) [])) nw kn file false 0
    ⟨open_writers locations,
     (dictKeys (locations.foldl (fun d l => dictInsert l.id l d) [])).foldl
       (fun d lid => dictInsert lid 0 d) []⟩).2 hcw hne
  have hscan_eq : exportScan business_id locations nw kn file
      = reviewScanGo business_id
          (locations.foldl (fun d l => dictInsert l.id l d) [])
          (dictKeys (locations.foldl (fun d l => dictInsert l.id l d) [])) nw kn file
          false 0
          ⟨open_writers locations,
           (dictKeys (locations.foldl (fun d l => dictInsert l.id l d) [])).foldl
             (fun d lid => dictInsert lid 0 d) []⟩ := rfl
  refine ⟨hret, ?_, ?_⟩
  · rw [hw, hc, hscan_eq]
    exact hinv.1
  · intro herrnone
    rw [herr] at herrnone
    have h := hstd herrnone
    rw [← hc] at h
    rw [h, hc]

/-- Witness for the amended C9 at a concrete run: one exported review for
location 3, counter equal to the stream's data-row count, summary printed
with total 1. -/
theorem export_reviews_reports_counts_witness :
    (export_reviews 7 [⟨3, "Downtown", 7⟩] "/tmp/out" true false 0
        ["COPY public.reviews_review (id) FROM stdin;",
         "0\tu1\tg\tT\ttx\tu\t5\tA\td\tok\tts\t7\t3\tb\th\ta\tr", "\\."]).ret = none ∧
    (export_reviews 7 [⟨3, "Downtown", 7⟩] "/tmp/out" true false 0
        ["COPY public.reviews_review (id) FROM stdin;",
         "0\tu1\tg\tT\ttx\tu\t5\tA\td\tok\tts\t7\t3\tb\th\ta\tr", "\\."]).counts
      = (export_reviews 7 [⟨3, "Downtown", 7⟩] "/tmp/out" true false 0
          ["COPY public.reviews_review (id) FROM stdin;",
           "0\tu1\tg\tT\ttx\tu\t5\tA\td\tok\tts\t7\t3\tb\th\ta\tr", "\\."]).writers.map
            streamCount := by
  have h := export_reviews_reports_counts 7 [⟨3, "Downtown", 7⟩] "/tmp/out" true false 0
    ["COPY public.reviews_review (id) FROM stdin;",
     "0\tu1\tg\tT\ttx\tu\t5\tA\td\tok\tts\t7\t3\tb\th\ta\tr", "\\."] (by decide)
  exact ⟨h.1, h.2.1⟩

/-- Bind of a successful `Except` computation reduces to the continuation. -/
theorem exceptBind_ok {ε α β : Type} (a : α) (f : α → Except ε β) :
    (Except.ok a : Except ε α) >>= f = f a := rfl

/-- A monadic fold over `Except` whose step always succeeds and appends that
row's optional contribution computes the `filterMap` of the rows (this is the
shape of every row loop of the identity resolver). -/
theorem foldlM_collect {β : Type} (step : List β → List String → Except String (List β))
    (pick : List String → Option β) (rows : List (List String))
    (hstep : ∀ (acc : List β) (row : List String), row ∈ rows →
      step acc row = .ok (acc ++ (pick row).toList)) :
    ∀ acc : List β, rows.foldlM step acc = .ok (acc ++ rows.filterMap pick) := by
  induction rows with
  | nil =>
    intro acc
    show (pure acc : Except String (List β)) = _
    simp
    rfl
  | cons r rows ih =>
    intro acc
    have hstep' : ∀ (a : List β) (row : List String), row ∈ rows →
        step a row = .ok (a ++ (pick row).toList) :=
      fun a row hr => hstep a row (List.mem_cons_of_mem _ hr)
    rw [List.foldlM_cons, hstep acc r (List.mem_cons_self _ _), exceptBind_ok,
      ih hstep' (acc ++ (pick r).toList)]
    cases hp : pick r <;>
      simp [List.filterMap_cons, hp, List.append_assoc]

/-- One step of the match-collecting loop of `find_business_id_by_name`, on a
readable row, contributes exactly `bizOfRow`. -/
theorem bizStep_eq (business_name : String) (acc : List Business)
    (row : List String) (hwf : bizRowOk row = true) :
    (do
      let s0 ← exceptIdx row 0
      let bid ← exceptInt s0
      let s2 ← exceptIdx row 2
      let name := decode_copy_text s2
      if name = business_name then pure (acc ++ [Business.mk bid name]) else pure acc)
      = (Except.ok (acc ++ (bizOfRow business_name row).toList) :
          Except String (List Business)) := by
  simp only [bizRowOk, Bool.and_eq_true, Option.isSome_iff_exists] at hwf
  obtain ⟨⟨bid, hbid⟩, ⟨s2, hs2⟩⟩ := hwf
  rcases hget0 : row.get? 0 with _ | s0
  · rw [hget0] at hbid; exact absurd hbid (by simp)
  rw [hget0] at hbid
  have hbid2 : pyInt s0 = some bid := hbid
  rw [List.get?_eq_getElem?] at hget0 hs2
  by_cases hname : decode_copy_text s2 = business_name <;>
    simp [exceptIdx, exceptInt, exceptBind_ok, bizOfRow, hget0, hs2, hbid2, hname]

/-- One step of the candidate-collecting loop of `find_business_id_by_name`,
on a row with a readable name field, contributes exactly `candOfRow`. -/
theorem candStep_eq (business_name : String) (acc : List String)
    (row : List String) (hwf : (row.get? 2).isSome = true) :
    (do
      let s2 ← exceptIdx row 2
      let name := decode_copy_text s2
      if containsLower business_name name then pure (acc ++ [name]) else pure acc)
      = (Except.ok (acc ++ (candOfRow business_name row).toList) :
          Except String (List String)) := by
  rcases hs2 : row.get? 2 with _ | s2
  · rw [hs2] at hwf; exact absurd hwf (by simp)
  rw [List.get?_eq_getElem?] at hs2
  by_cases hcand : containsLower business_name (decode_copy_text s2) = true
  · simp [exceptIdx, exceptBind_ok, candOfRow, hs2, hcand]
    rfl
  · simp only [Bool.not_eq_true] at hcand
    simp [exceptIdx, exceptBind_ok, candOfRow, hs2, hcand]
    rfl

/-- One step of the row loop of `load_locations_for_business`, on a readable
row, contributes exactly `locOfRow`. -/
theorem locStep_eq (business_id : Int) (acc : List Location)
    (row : List String) (hwf : locRowOk row = true) :
    (do
      let s0 ← exceptIdx row 0
      let lid ← exceptInt s0
      let s2 ← exceptIdx row 2
      let name := decode_copy_text s2
      let s3 ← exceptIdx row 3
      let bid ← exceptInt s3
      if bid = business_id then pure (acc ++ [Location.mk lid name bid]) else pure acc)
      = (Except.ok (acc ++ (locOfRow business_id row).toList) :
          Except String (List Location)) := by
  simp only [locRowOk, Bool.and_eq_true, Option.isSome_iff_exists] at hwf
  obtain ⟨⟨⟨lid, hlid⟩, ⟨s2, hs2⟩⟩, ⟨bid, hbid⟩⟩ := hwf
  rcases hget0 : row.get? 0 with _ | s0
  · rw [hget0] at hlid; exact absurd hlid (by simp)
  rcases hget3 : row.get? 3 with _ | s3
  · rw [hget3] at hbid; exact absurd hbid (by simp)
  rw [hget0] at hlid
  rw [hget3] at hbid
  have hlid2 : pyInt s0 = some lid := hlid
  have hbid2 : pyInt s3 = some bid := hbid
  rw [List.get?_eq_getElem?] at hget0 hget3 hs2
  by_cases hb : bid = business_id <;>
    simp [exceptIdx, exceptInt, exceptBind_ok, locOfRow, hget0, hget3, hs2,
      hlid2, hbid2, hb]

/-- C3: when the businesses block is readable, `find_business_id_by_name`
returns the Business (id, decoded name) exactly when one row's decoded name
equals the supplied name by case-sensitive full-string equality; with zero
matching rows it fails fatally, attaching up to 8 case-insensitive
substring-match candidate names (the hint is empty when there are no
candidates); with two or more matching rows it fails fatally listing the
colliding ids. -/
theorem find_business_id_by_name_spec (businessFile : List String)
    (business_name : String) (rows : List (List String))
    (hrows : iter_copy_rows BUSINESS_SQL businessFile "business_business" = .ok rows)
    (hwf : ∀ row ∈ rows, bizRowOk row = true) :
    (∀ b : Business, rows.filterMap (bizOfRow business_name) = [b] →
      find_business_id_by_name businessFile business_name = .ok b) ∧
    (rows.filterMap (bizOfRow business_name) = [] →
      find_business_id_by_name businessFile business_name
        = .error ("business \"" ++ business_name ++ "\" not found"
            ++ candidatesHint (rows.filterMap (candOfRow business_name)))) ∧
    (∀ (b1 b2 : Business) (t : List Business),
      rows.filterMap (bizOfRow business_name) = b1 :: b2 :: t →
      find_business_id_by_name businessFile business_name
        = .error ("business \"" ++ business_name ++ "\" matched multiple rows: "
            ++ pyIntListRepr ((rows.filterMap (bizOfRow business_name)).map
                Business.id))) := by
  have hfold1 : rows.foldlM (fun acc row => do
        let s0 ← exceptIdx row 0
        let bid ← exceptInt s0
        let s2 ← exceptIdx row 2
        let name := decode_copy_text s2
        if name = business_name then pure (acc ++ [Business.mk bid name])
        else pure acc)
      ([] : List Business) = .ok (rows.filterMap (bizOfRow business_name)) := by
    have h := foldlM_collect _ (bizOfRow business_name) rows
      (fun acc row hr => bizStep_eq business_name acc row (hwf row hr)) []
    simpa using h
  have hfold2 : rows.foldlM (fun acc row => do
        let s2 ← exceptIdx row 2
        let name := decode_copy_text s2
        if containsLower business_name name then pure (acc ++ [name]) else pure acc)
      ([] : List String) = .ok (rows.filterMap (candOfRow business_name)) := by
    have h := foldlM_collect _ (candOfRow business_name) rows
      (fun acc row hr => candStep_eq business_name acc row (by
        have h2 := hwf row hr
        simp only [bizRowOk, Bool.and_eq_true] at h2
        exact h2.2)) []
    simpa using h
  unfold find_business_id_by_name
  rw [hrows, exceptBind_ok]
  dsimp only
  rw [hfold1, exceptBind_ok]
  refine ⟨?_, ?_, ?_⟩
  · intro b heq
    rw [heq]
    rfl
  · intro heq
    rw [heq]
    dsimp only
    rw [hfold2, exceptBind_ok]
  · intro b1 b2 t heq
    rw [heq]

/-- Witness for C3: the three outcomes on concrete business blocks — a unique
exact match, a zero-match failure with candidate hints, and a two-match
ambiguity failure. -/
theorem find_business_id_by_name_spec_witness :
    find_business_id_by_name
        ["COPY public.business_business (id, uid, business_name) FROM stdin;",
         "7\tu\tAcme Foods", "8\tu\tAcme Bar", "\\."] "Acme Foods"
      = .ok ⟨7, "Acme Foods"⟩ ∧
    find_business_id_by_name
        ["COPY public.business_business (id, uid, business_name) FROM stdin;",
         "7\tu\tAcme Foods", "8\tu\tAcme Bar", "\\."] "acme"
      = .error "business \"acme\" not found (candidates: Acme Foods, Acme Bar)" ∧
    find_business_id_by_name
        ["COPY public.business_business (id, uid, business_name) FROM stdin;",
         "7\tu\tAcme Foods", "9\tu\tAcme Foods", "\\."] "Acme Foods"
      = .error "business \"Acme Foods\" matched multiple rows: [7, 9]" := by
  refine ⟨?_, ?_, ?_⟩
  · exact (find_business_id_by_name_spec
        ["COPY public.business_business (id, uid, business_name) FROM stdin;",
         "7\tu\tAcme Foods", "8\tu\tAcme Bar", "\\."] "Acme Foods"
        [["7", "u", "Acme Foods"], ["8", "u", "Acme Bar"]]
        (by decide) (by decide)).1 ⟨7, "Acme Foods"⟩ (by decide)
  · have h := (find_business_id_by_name_spec
        ["COPY public.business_business (id, uid, business_name) FROM stdin;",
         "7\tu\tAcme Foods", "8\tu\tAcme Bar", "\\."] "acme"
        [["7", "u", "Acme Foods"], ["8", "u", "Acme Bar"]]
        (by decide) (by decide)).2.1 (by decide)
    rw [h]
    decide
  · have h := (find_business_id_by_name_spec
        ["COPY public.business_business (id, uid, business_name) FROM stdin;",
         "7\tu\tAcme Foods", "9\tu\tAcme Foods", "\\."] "Acme Foods"
        [["7", "u", "Acme Foods"], ["9", "u", "Acme Foods"]]
        (by decide) (by decide)).2.2 ⟨7, "Acme Foods"⟩ ⟨9, "Acme Foods"⟩ []
        (by decide)
    rw [h]
    decide

/-- C7: when the locations block is readable,
`load_locations_for_business` returns exactly the Location records built from
the rows whose business-id field (position 3) equals the target business id
(same multiset, every retained record carrying the target id), sorted
ascending by location id; and at the call site in `main` an empty result list
is a fatal error terminating the run, while a non-empty one proceeds. -/
theorem load_locations_for_business_spec (locationFile : List String)
    (business_id : Int) (rows : List (List String))
    (hrows : iter_copy_rows LOCATION_SQL locationFile "business_location" = .ok rows)
    (hwf : ∀ row ∈ rows, locRowOk row = true) :
    (∃ l : List Location,
      load_locations_for_business locationFile business_id = .ok l ∧
      List.Sorted locLe l ∧
      l.Perm (rows.filterMap (locOfRow business_id)) ∧
      (∀ loc ∈ l, loc.business_id = business_id)) ∧
    (∀ biz : Business,
      mainLocationsCheck biz []
        = .error ("no locations found for business_id=" ++ toString biz.id
            ++ " (\"" ++ biz.name ++ "\")")) ∧
    (∀ (biz : Business) (locs : List Location), locs ≠ [] →
      mainLocationsCheck biz locs = .ok ()) := by
  have hfold : rows.foldlM (fun acc row => do
        let s0 ← exceptIdx row 0
        let lid ← exceptInt s0
        let s2 ← exceptIdx row 2
        let name := decode_copy_text s2
        let s3 ← exceptIdx row 3
        let bid ← exceptInt s3
        if bid = business_id then pure (acc ++ [Location.mk lid name bid])
        else pure acc)
      ([] : List Location) = .ok (rows.filterMap (locOfRow business_id)) := by
    have h := foldlM_collect _ (locOfRow business_id) rows
      (fun acc row hr => locStep_eq business_id acc row (hwf row hr)) []
    simpa using h
  refine ⟨?_, ?_, ?_⟩
  · refine ⟨List.insertionSort locLe (rows.filterMap (locOfRow business_id)),
      ?_, ?_, ?_, ?_⟩
    · unfold load_locations_for_business
      rw [hrows, exceptBind_ok]
      dsimp only
      rw [hfold, exceptBind_ok]
      rfl
    · exact List.sorted_insertionSort locLe _
    · exact List.perm_insertionSort locLe _
    · intro loc hloc
      have hloc2 : loc ∈ rows.filterMap (locOfRow business_id) :=
        (List.perm_insertionSort locLe _).mem_iff.mp hloc
      rcases List.mem_filterMap.mp hloc2 with ⟨row, _, hrow⟩
      unfold locOfRow at hrow
      rcases h0 : row.get? 0 with _ | s0 <;> rw [h0] at hrow
      · exact absurd hrow (by simp)
      rcases h2 : row.get? 2 with _ | s2 <;> rw [h2] at hrow
      · exact absurd hrow (by simp)
      rcases h3 : row.get? 3 with _ | s3 <;> rw [h3] at hrow
      · exact absurd hrow (by simp)
      dsimp only at hrow
      rcases hp0 : pyInt s0 with _ | lid <;> rw [hp0] at hrow
      · exact absurd hrow (by simp)
      rcases hp3 : pyInt s3 with _ | bid <;> rw [hp3] at hrow
      · exact absurd hrow (by simp)
      dsimp only at hrow
      by_cases hb : bid = business_id
      · rw [if_pos hb] at hrow
        cases hrow
        exact hb
      · rw [if_neg hb] at hrow
        exact absurd hrow (by simp)
  · intro biz
    rfl
  · intro biz locs hne
    unfold mainLocationsCheck
    rw [if_neg hne]

/-- Witness for C7: a concrete locations block with two rows of business 7
(listed out of order) and one of business 8 loads as the two business-7
locations sorted by id, and the empty-result check at the call site fails
exactly on the empty list. -/
theorem load_locations_for_business_spec_witness :
    load_locations_for_business
        ["COPY public.business_location (id, uid, name, business_id) FROM stdin;",
         "9\tu\tUptown\t7", "3\tu\tDowntown\t7", "4\tu\tOther\t8", "\\."] 7
      = .ok [⟨3, "Downtown", 7⟩, ⟨9, "Uptown", 7⟩] ∧
    mainLocationsCheck ⟨7, "Acme Foods"⟩ []
      = .error "no locations found for business_id=7 (\"Acme Foods\")" ∧
    mainLocationsCheck ⟨7, "Acme Foods"⟩ [⟨3, "Downtown", 7⟩] = .ok () := by
  have h := load_locations_for_business_spec
    ["COPY public.business_location (id, uid, name, business_id) FROM stdin;",
     "9\tu\tUptown\t7", "3\tu\tDowntown\t7", "4\tu\tOther\t8", "\\."] 7
    [["9", "u", "Uptown", "7"], ["3", "u", "Downtown", "7"], ["4", "u", "Other", "8"]]
    (by decide) (by decide)
  obtain ⟨⟨l, hl, _, hperm, _⟩, hempty, hnonempty⟩ := h
  refine ⟨?_, ?_, ?_⟩
  · decide
  · have h2 := hempty ⟨7, "Acme Foods"⟩
    rw [h2]
    decide
  · exact hnonempty ⟨7, "Acme Foods"⟩ [⟨3, "Downtown", 7⟩] (by decide)

end SalsaExport
